import Mathlib

/-!
Formal model of `find_similar` from
`question similarity checker/utils/similarity.py`:

```python
def find_similar(query_vec, embeddings, corpus, top_n=5):
    sims = cosine_similarity(query_vec, embeddings).flatten()
    top_indices = sims.argsort()[-top_n:][::-1]
    results = [(corpus[idx], sims[idx]) for idx in top_indices]
    return results
```

Vectors are lists of reals, the matrix a list of rows.  Places where the
Python call raises (sklearn input validation in `cosine_similarity`, the
`corpus[idx]` lookup) are modelled with `Except.error`.  `argsort` is
modelled as a stable ascending sort of indices.  numpy's default argsort
(introsort) is deterministic but NOT stable in general: it runs a stable
insertion sort only on arrays of at most 16 elements (its small-sort
cutoff), and permutes ties arbitrarily above that.  Every theorem below is
insensitive to the tie order (lengths, error paths, score monotonicity,
unique-maximum head, determinism, slice identities) except the one
tie-break theorem, which therefore carries an explicit `length ≤ 16`
hypothesis confining it to the regime where the stable model provably
coincides with numpy.  The Python slice `[-top_n:]` is modelled with full
negative-index semantics since `top_n` is an arbitrary `int`.
-/

namespace SimilarityChecker

/-- Dot product of two index-aligned real vectors. -/
def dot : List ℝ → List ℝ → ℝ
  | [], _ => 0
  | _, [] => 0
  | a :: as, b :: bs => a * b + dot as bs

/-- Euclidean norm of a vector. -/
noncomputable def norm2 (v : List ℝ) : ℝ := Real.sqrt (dot v v)

/-- The divisor used by sklearn `normalize`: rows whose norm is zero are
divided by `1` instead (`norms[norms == 0.0] = 1.0`). -/
noncomputable def normFactor (v : List ℝ) : ℝ := if norm2 v = 0 then 1 else norm2 v

/-- Cosine similarity of two vectors as sklearn computes it: both vectors are
l2-normalized (zero norms replaced by 1) and then dotted. -/
noncomputable def cosSim (q r : List ℝ) : ℝ := dot q r / (normFactor q * normFactor r)

/-- `cosine_similarity(query_vec, embeddings).flatten()` for a single query row.
`check_pairwise_arrays` validates both inputs with `check_array`
(`ensure_min_samples=1`, `ensure_min_features=1`) and then compares the
column counts, raising `ValueError` on any mismatch. -/
noncomputable def cosine_similarity (query_vec : List ℝ) (embeddings : List (List ℝ)) :
    Except String (List ℝ) :=
  if query_vec.length = 0 then
    .error "Found array with 0 feature(s) while a minimum of 1 is required"
  else if embeddings.length = 0 then
    .error "Found array with 0 sample(s) while a minimum of 1 is required"
  else if ¬ embeddings.all (fun row => row.length == query_vec.length) then
    .error "Incompatible dimension for X and Y matrices"
  else
    .ok (embeddings.map (cosSim query_vec))

/-- Order in which a stable ascending argsort emits indices: by value, ties by
original position. -/
def simKey (sims : List ℝ) (i j : ℕ) : Prop :=
  sims.getD i 0 < sims.getD j 0 ∨ (sims.getD i 0 = sims.getD j 0 ∧ i ≤ j)

noncomputable instance (sims : List ℝ) : DecidableRel (simKey sims) := fun _ _ => by
  unfold simKey; infer_instance

instance (sims : List ℝ) : IsTotal ℕ (simKey sims) where
  total i j := by
    rcases lt_trichotomy (sims.getD i 0) (sims.getD j 0) with h | h | h
    · exact Or.inl (Or.inl h)
    · rcases Nat.le_total i j with hij | hij
      · exact Or.inl (Or.inr ⟨h, hij⟩)
      · exact Or.inr (Or.inr ⟨h.symm, hij⟩)
    · exact Or.inr (Or.inl h)

instance (sims : List ℝ) : IsTrans ℕ (simKey sims) where
  trans i j k hij hjk := by
    rcases hij with h₁ | ⟨e₁, l₁⟩
    · rcases hjk with h₂ | ⟨e₂, _⟩
      · exact Or.inl (h₁.trans h₂)
      · exact Or.inl (e₂ ▸ h₁)
    · rcases hjk with h₂ | ⟨e₂, l₂⟩
      · exact Or.inl (e₁ ▸ h₂)
      · exact Or.inr ⟨e₁.trans e₂, l₁.trans l₂⟩

/-- `sims.argsort()`: indices `0 .. N-1` sorted ascending by similarity.
Ties are kept in their original relative order (a stable sort).  This
coincides with numpy exactly when `sims.length ≤ 16`, where numpy's
introsort runs its stable insertion sort; above that cutoff numpy is still
deterministic and ascending-by-value, but its tie order is unspecified, so
no theorem below may rely on the tie order without a size hypothesis. -/
noncomputable def argsort (sims : List ℝ) : List ℕ :=
  List.insertionSort (simKey sims) (List.range sims.length)

/-- Python slice `l[s:]` for an arbitrary integer start `s`. -/
def sliceFrom (s : ℤ) (l : List ℕ) : List ℕ :=
  if s < 0 then l.drop (l.length - (-s).toNat) else l.drop s.toNat

/-- `sims.argsort()[-top_n:][::-1]`. -/
noncomputable def top_indices (sims : List ℝ) (top_n : ℤ) : List ℕ :=
  (sliceFrom (-top_n) (argsort sims)).reverse

/-- `find_similar(query_vec, embeddings, corpus, top_n)`.  The list
comprehension `[(corpus[idx], sims[idx]) for idx in top_indices]` raises
`IndexError` as soon as some selected index is out of range for `corpus`
(indices are always in range for `sims` itself). -/
noncomputable def find_similar (query_vec : List ℝ) (embeddings : List (List ℝ))
    (corpus : List String) (top_n : ℤ) : Except String (List (String × ℝ)) :=
  match cosine_similarity query_vec embeddings with
  | .error e => .error e
  | .ok sims =>
    if (top_indices sims top_n).all (fun idx => decide (idx < corpus.length)) then
      .ok ((top_indices sims top_n).map (fun idx => (corpus.getD idx "", sims.getD idx 0)))
    else
      .error "IndexError: list index out of range"

/-! ### Basic facts about the ranking pipeline -/

theorem argsort_perm (sims : List ℝ) : (argsort sims).Perm (List.range sims.length) :=
  List.perm_insertionSort _ _

theorem argsort_length (sims : List ℝ) : (argsort sims).length = sims.length := by
  simpa using (argsort_perm sims).length_eq

theorem argsort_nodup (sims : List ℝ) : (argsort sims).Nodup :=
  ((argsort_perm sims).nodup_iff).mpr (List.nodup_range _)

theorem mem_argsort {sims : List ℝ} {i : ℕ} : i ∈ argsort sims ↔ i < sims.length := by
  rw [(argsort_perm sims).mem_iff, List.mem_range]

theorem argsort_sorted (sims : List ℝ) : (argsort sims).Sorted (simKey sims) :=
  List.sorted_insertionSort _ _

theorem top_indices_length_pos {n : ℤ} (sims : List ℝ) (hn : 0 < n) :
    (top_indices sims n).length = min n.toNat sims.length := by
  unfold top_indices sliceFrom
  rw [if_pos (by omega : -n < 0)]
  simp only [List.length_reverse, List.length_drop, argsort_length]
  omega

theorem top_indices_length_nonpos {n : ℤ} (sims : List ℝ) (hn : n ≤ 0) :
    (top_indices sims n).length = sims.length - (-n).toNat := by
  unfold top_indices sliceFrom
  rw [if_neg (by omega : ¬ -n < 0)]
  simp only [List.length_reverse, List.length_drop, argsort_length]

theorem sliceFrom_sublist (s : ℤ) (l : List ℕ) : (sliceFrom s l).Sublist l := by
  unfold sliceFrom
  split <;> exact List.drop_sublist _ _

theorem mem_top_indices {sims : List ℝ} {n : ℤ} {i : ℕ} (h : i ∈ top_indices sims n) :
    i < sims.length := by
  unfold top_indices at h
  rw [List.mem_reverse] at h
  exact mem_argsort.mp ((sliceFrom_sublist _ _).mem h)

theorem top_indices_pairwise (sims : List ℝ) (n : ℤ) :
    (top_indices sims n).Pairwise (fun i j => simKey sims j i) := by
  unfold top_indices
  rw [List.pairwise_reverse]
  exact List.Pairwise.sublist (sliceFrom_sublist _ _) (argsort_sorted sims)

theorem top_indices_nodup (sims : List ℝ) (n : ℤ) : (top_indices sims n).Nodup := by
  unfold top_indices
  rw [List.nodup_reverse]
  exact (sliceFrom_sublist _ _).nodup (argsort_nodup sims)

/-- Scores along the selected indices are non-increasing. -/
theorem top_indices_scores_antitone (sims : List ℝ) (n : ℤ) :
    (top_indices sims n).Pairwise (fun i j => sims.getD j 0 ≤ sims.getD i 0) := by
  refine (top_indices_pairwise sims n).imp ?_
  rintro i j (h | ⟨h, -⟩)
  · exact h.le
  · exact h.le

/-- Among equal scores, later positions in the ranking carry strictly smaller
original indices: the ranking lists ties by descending original index. -/
theorem top_indices_ties_desc (sims : List ℝ) (n : ℤ) :
    (top_indices sims n).Pairwise (fun i j => sims.getD i 0 = sims.getD j 0 → j < i) := by
  have h := (top_indices_pairwise sims n).and (top_indices_nodup sims n)
  refine h.imp ?_
  rintro i j ⟨hk | ⟨he, hle⟩, hne⟩
  · intro he
    exact absurd hk (by rw [he]; exact lt_irrefl _)
  · intro _
    exact lt_of_le_of_ne hle (Ne.symm hne)

/-! ### Unfolding the two stages of `find_similar` -/

theorem cosine_similarity_ok {q : List ℝ} {E : List (List ℝ)}
    (hq : q.length ≠ 0) (hE : E.length ≠ 0)
    (hrows : ∀ r ∈ E, r.length = q.length) :
    cosine_similarity q E = .ok (E.map (cosSim q)) := by
  unfold cosine_similarity
  rw [if_neg hq, if_neg hE, if_neg]
  intro h
  exact h (List.all_eq_true.mpr fun r hr => by simpa using hrows r hr)

theorem find_similar_ok {q : List ℝ} {E : List (List ℝ)} {c : List String}
    {sims : List ℝ} {n : ℤ} (h : cosine_similarity q E = .ok sims)
    (hlt : ∀ i ∈ top_indices sims n, i < c.length) :
    find_similar q E c n =
      .ok ((top_indices sims n).map (fun idx => (c.getD idx "", sims.getD idx 0))) := by
  unfold find_similar
  rw [h]
  simp only []
  rw [if_pos (List.all_eq_true.mpr fun i hi => by simpa using hlt i hi)]

theorem find_similar_error_of_cos {q : List ℝ} {E : List (List ℝ)} {c : List String}
    {n : ℤ} {e : String} (h : cosine_similarity q E = .error e) :
    find_similar q E c n = .error e := by
  unfold find_similar
  rw [h]

theorem find_similar_index_error {q : List ℝ} {E : List (List ℝ)} {c : List String}
    {sims : List ℝ} {n : ℤ} (h : cosine_similarity q E = .ok sims)
    (hlt : ¬ ∀ i ∈ top_indices sims n, i < c.length) :
    find_similar q E c n = .error "IndexError: list index out of range" := by
  unfold find_similar
  rw [h]
  simp only []
  rw [if_neg]
  intro hall
  exact hlt fun i hi => by simpa using List.all_eq_true.mp hall i hi

/-- Inversion: an `ok` result is exactly the mapped ranking of the cosine row. -/
theorem find_similar_ok_shape {q : List ℝ} {E : List (List ℝ)} {c : List String}
    {n : ℤ} {res : List (String × ℝ)} (h : find_similar q E c n = .ok res) :
    ∃ sims, cosine_similarity q E = .ok sims ∧
      res = (top_indices sims n).map (fun idx => (c.getD idx "", sims.getD idx 0)) := by
  cases hcos : cosine_similarity q E with
  | error e =>
    rw [find_similar_error_of_cos hcos] at h
    cases h
  | ok sims =>
    refine ⟨sims, rfl, ?_⟩
    by_cases hall : ∀ i ∈ top_indices sims n, i < c.length
    · rw [find_similar_ok hcos hall, Except.ok.injEq] at h
      exact h.symm
    · rw [find_similar_index_error hcos hall] at h
      cases h

theorem map_cosSim_getD {q : List ℝ} {E : List (List ℝ)} {j : ℕ} (hj : j < E.length) :
    (E.map (cosSim q)).getD j 0 = cosSim q (E.getD j []) := by
  rw [List.getD_eq_getElem?_getD, List.getElem?_map, List.getD_eq_getElem?_getD,
    List.getElem?_eq_getElem hj]
  rfl

theorem top_indices_zero (sims : List ℝ) : top_indices sims 0 = (argsort sims).reverse := by
  unfold top_indices sliceFrom
  norm_num

theorem top_indices_of_ge {sims : List ℝ} {n : ℤ} (hn : 0 < n)
    (h : sims.length ≤ n.toNat) : top_indices sims n = (argsort sims).reverse := by
  unfold top_indices sliceFrom
  rw [if_pos (by omega : -n < 0), neg_neg, argsort_length,
    Nat.sub_eq_zero_of_le h, List.drop_zero]

/-- For a positive `top_n` on a nonempty row of scores, the first ranked index
is the last index of the ascending argsort. -/
theorem top_indices_head {sims : List ℝ} {n : ℤ} (hn : 0 < n) (hne : sims ≠ []) :
    (top_indices sims n).head? = (argsort sims).getLast? := by
  have hlen : sims.length ≠ 0 := fun h0 => hne (List.length_eq_zero.mp h0)
  have hA := argsort_length sims
  unfold top_indices sliceFrom
  rw [if_pos (by omega : -n < 0), neg_neg, List.reverse_drop, List.head?_take,
    if_neg (by omega), List.head?_reverse]

/-- If index `k` holds the unique maximal score, the ascending argsort ends in `k`. -/
theorem argsort_getLast {sims : List ℝ} {k : ℕ} (hk : k < sims.length)
    (hmax : ∀ j < sims.length, j ≠ k → sims.getD j 0 < sims.getD k 0) :
    (argsort sims).getLast? = some k := by
  have hne : argsort sims ≠ [] := by
    apply List.ne_nil_of_length_pos
    rw [argsort_length]
    omega
  rw [List.getLast?_eq_getLast _ hne, Option.some.injEq]
  by_contra hjk
  have hjm : (argsort sims).getLast hne ∈ argsort sims := List.getLast_mem hne
  have hjlt : (argsort sims).getLast hne < sims.length := mem_argsort.mp hjm
  have hvj := hmax _ hjlt hjk
  have hkm : k ∈ argsort sims := mem_argsort.mpr hk
  have hsplit := List.dropLast_append_getLast hne
  have hsorted : List.Pairwise (simKey sims)
      ((argsort sims).dropLast ++ [(argsort sims).getLast hne]) := by
    rw [hsplit]
    exact argsort_sorted sims
  rw [← hsplit, List.mem_append] at hkm
  rcases hkm with hkd | hklast
  · rw [List.pairwise_append] at hsorted
    have hkey := hsorted.2.2 k hkd ((argsort sims).getLast hne) (List.mem_singleton_self _)
    rcases hkey with h | ⟨h, _⟩
    · exact absurd hvj (not_lt.mpr h.le)
    · rw [h] at hvj
      exact lt_irrefl _ hvj
  · rw [List.mem_singleton] at hklast
    exact hjk hklast.symm

/-! ### Vector arithmetic facts -/

theorem dot_self_nonneg (v : List ℝ) : 0 ≤ dot v v := by
  induction v with
  | nil => exact le_refl _
  | cons a as ih =>
    rw [dot]
    exact add_nonneg (mul_self_nonneg a) ih

theorem dot_nil_left (b : List ℝ) : dot [] b = 0 := by cases b <;> rfl

theorem dot_nil_right (a : List ℝ) : dot a [] = 0 := by cases a <;> rfl

theorem dot_zero_left : ∀ (a b : List ℝ), (∀ x ∈ a, x = 0) → dot a b = 0
  | [], b, _ => dot_nil_left b
  | a :: as, [], _ => dot_nil_right (a :: as)
  | a :: as, b :: bs, h => by
    rw [dot, h a (List.mem_cons_self a as), zero_mul, zero_add]
    exact dot_zero_left as bs fun x hx => h x (List.mem_cons_of_mem a hx)

theorem dot_zero_right : ∀ (a b : List ℝ), (∀ x ∈ b, x = 0) → dot a b = 0
  | [], b, _ => dot_nil_left b
  | a :: as, [], _ => dot_nil_right (a :: as)
  | a :: as, b :: bs, h => by
    rw [dot, h b (List.mem_cons_self b bs), mul_zero, zero_add]
    exact dot_zero_right as bs fun x hx => h x (List.mem_cons_of_mem b hx)

/-- Cauchy-Schwarz for the list dot product. -/
theorem dot_sq_le : ∀ a b : List ℝ, (dot a b) ^ 2 ≤ dot a a * dot b b
  | [], b => by
    rw [dot_nil_left, dot_nil_left]
    norm_num
  | a :: as, [] => by
    rw [dot_nil_right, dot_nil_right, mul_zero]
    norm_num
  | x :: as, y :: bs => by
    have ih := dot_sq_le as bs
    have hA := dot_self_nonneg as
    have hB := dot_self_nonneg bs
    rw [dot, dot, dot]
    rcases eq_or_lt_of_le hB with hB0 | hBpos
    · have hd : dot as bs = 0 := by nlinarith [sq_nonneg (dot as bs)]
      rw [hd, ← hB0]
      nlinarith [mul_nonneg hA (mul_self_nonneg y)]
    · nlinarith [sq_nonneg (x * dot bs bs - y * dot as bs),
        mul_nonneg (mul_self_nonneg y) (sub_nonneg.mpr ih),
        mul_nonneg hBpos.le (sub_nonneg.mpr ih)]

theorem norm2_nonneg (v : List ℝ) : 0 ≤ norm2 v := Real.sqrt_nonneg _

theorem normFactor_pos (v : List ℝ) : 0 < normFactor v := by
  unfold normFactor
  split
  · exact one_pos
  · rename_i h
    exact lt_of_le_of_ne (norm2_nonneg v) (Ne.symm h)

/-- A zero-magnitude vector on either side makes the sklearn cosine similarity
exactly `0` (the zero norm is replaced by `1`, and the dot product vanishes). -/
theorem cosSim_zero_of_degenerate (q r : List ℝ)
    (h : (∀ x ∈ q, x = 0) ∨ (∀ x ∈ r, x = 0)) : cosSim q r = 0 := by
  rw [cosSim]
  rcases h with h | h
  · rw [dot_zero_left q r h, zero_div]
  · rw [dot_zero_right q r h, zero_div]

theorem cosSim_self {q : List ℝ} (h : dot q q ≠ 0) : cosSim q q = 1 := by
  have h0 : 0 < dot q q := lt_of_le_of_ne (dot_self_nonneg q) (Ne.symm h)
  have hs : norm2 q ≠ 0 := ne_of_gt (Real.sqrt_pos.mpr h0)
  rw [cosSim, normFactor, if_neg hs, norm2, Real.mul_self_sqrt (dot_self_nonneg q),
    div_self h]

theorem cosSim_le_one (q r : List ℝ) : cosSim q r ≤ 1 := by
  have hpos : 0 < normFactor q * normFactor r :=
    mul_pos (normFactor_pos q) (normFactor_pos r)
  rw [cosSim, div_le_one hpos]
  rcases le_or_lt (dot q r) 0 with hd | hd
  · exact hd.trans hpos.le
  · have hcs := dot_sq_le q r
    have hqq : 0 < dot q q := by
      rcases eq_or_lt_of_le (dot_self_nonneg q) with h0 | h0
      · exfalso
        rw [← h0, zero_mul] at hcs
        nlinarith [hd]
      · exact h0
    have hrr : 0 < dot r r := by
      rcases eq_or_lt_of_le (dot_self_nonneg r) with h0 | h0
      · exfalso
        rw [← h0, mul_zero] at hcs
        nlinarith [hd]
      · exact h0
    have hfq : normFactor q = Real.sqrt (dot q q) := by
      rw [normFactor, norm2, if_neg (ne_of_gt (Real.sqrt_pos.mpr hqq))]
    have hfr : normFactor r = Real.sqrt (dot r r) := by
      rw [normFactor, norm2, if_neg (ne_of_gt (Real.sqrt_pos.mpr hrr))]
    calc dot q r = Real.sqrt ((dot q r) ^ 2) := (Real.sqrt_sq hd.le).symm
      _ ≤ Real.sqrt (dot q q * dot r r) := Real.sqrt_le_sqrt hcs
      _ = Real.sqrt (dot q q) * Real.sqrt (dot r r) :=
          Real.sqrt_mul (dot_self_nonneg q) _
      _ = normFactor q * normFactor r := by rw [hfq, hfr]

/-! ### Concrete evaluations used by counterexamples and witnesses -/

theorem range_two : List.range 2 = [0, 1] := rfl

theorem cosSim_e1_self : cosSim [(1:ℝ), 0] [1, 0] = 1 := by
  have hd : dot [(1:ℝ), 0] [1, 0] = 1 := by norm_num [dot]
  have hn : norm2 [(1:ℝ), 0] = 1 := by rw [norm2, hd, Real.sqrt_one]
  rw [cosSim, hd, normFactor, hn]
  norm_num

theorem cosSim_e1_scaled : cosSim [(1:ℝ), 0] [2, 0] = 1 := by
  have hd : dot [(1:ℝ), 0] [2, 0] = 2 := by norm_num [dot]
  have hdq : dot [(1:ℝ), 0] [1, 0] = 1 := by norm_num [dot]
  have hdr : dot [(2:ℝ), 0] [2, 0] = 4 := by norm_num [dot]
  have hnq : norm2 [(1:ℝ), 0] = 1 := by rw [norm2, hdq, Real.sqrt_one]
  have hnr : norm2 [(2:ℝ), 0] = 2 := by
    rw [norm2, hdr, show (4:ℝ) = 2 ^ 2 by norm_num, Real.sqrt_sq (by norm_num)]
  rw [cosSim, hd, normFactor, hnq, normFactor, hnr]
  norm_num

theorem cosSim_e1_orth : cosSim [(1:ℝ), 0] [0, 1] = 0 := by
  have hd : dot [(1:ℝ), 0] [0, 1] = 0 := by norm_num [dot]
  rw [cosSim, hd, zero_div]

theorem cos_row_single : cosine_similarity [(1:ℝ), 0] [[1, 0]] = .ok [1] := by
  rw [cosine_similarity_ok (by norm_num) (by norm_num)
    (by intro r hr; simp only [List.mem_singleton] at hr; subst hr; rfl)]
  simp [cosSim_e1_self]

theorem cos_row_tie : cosine_similarity [(1:ℝ), 0] [[1, 0], [1, 0]] = .ok [1, 1] := by
  rw [cosine_similarity_ok (by norm_num) (by norm_num)
    (by intro r hr; simp only [List.mem_cons, List.mem_singleton] at hr
        rcases hr with h | h | h <;> first | (subst h; rfl) | simp at h)]
  simp [cosSim_e1_self]

theorem cos_row_scaled : cosine_similarity [(1:ℝ), 0] [[1, 0], [2, 0]] = .ok [1, 1] := by
  rw [cosine_similarity_ok (by norm_num) (by norm_num)
    (by intro r hr; simp only [List.mem_cons, List.mem_singleton] at hr
        rcases hr with h | h | h <;> first | (subst h; rfl) | simp at h)]
  simp [cosSim_e1_self, cosSim_e1_scaled]

theorem topIdx_ones_two : top_indices [(1:ℝ), 1] 2 = [1, 0] := by
  norm_num [top_indices, argsort, sliceFrom, range_two, List.insertionSort,
    List.orderedInsert, simKey]

theorem topIdx_ones_one : top_indices [(1:ℝ), 1] 1 = [1] := by
  norm_num [top_indices, argsort, sliceFrom, range_two, List.insertionSort,
    List.orderedInsert, simKey]

theorem topIdx_single_five : top_indices [(1:ℝ)] 5 = [0] := by
  norm_num [top_indices, argsort, sliceFrom, List.insertionSort,
    List.orderedInsert, simKey]

theorem topIdx_single_zero : top_indices [(1:ℝ)] 0 = [0] := by
  norm_num [top_indices, argsort, sliceFrom, List.insertionSort,
    List.orderedInsert, simKey]

theorem eval_single : find_similar [(1:ℝ), 0] [[1, 0]] ["a"] 5 = .ok [("a", 1)] := by
  rw [find_similar_ok cos_row_single (by simp [topIdx_single_five])]
  simp [topIdx_single_five]

/-! ### Claims -/

/-- C1 (amended): for a nonempty embedding matrix whose rows are nonempty and
match the query dimension, an index-aligned corpus and a positive `top_n`,
`find_similar` succeeds and returns exactly `min top_n N` pairs; in
particular `top_n > N` returns all `N` entries ranked, with no padding and
no error.  (The unamended claim also covered `N = 0`, where sklearn input
validation raises instead of returning an empty sequence.) -/
theorem find_similar_length_min {q : List ℝ} {E : List (List ℝ)} {c : List String}
    {n : ℤ} (hq : q.length ≠ 0) (hE : E.length ≠ 0)
    (hrows : ∀ r ∈ E, r.length = q.length) (hc : c.length = E.length) (hn : 0 < n) :
    ∃ res, find_similar q E c n = .ok res ∧ res.length = min n.toNat E.length := by
  have hcos := cosine_similarity_ok hq hE hrows
  have hlen : (E.map (cosSim q)).length = E.length := List.length_map E _
  have hlt : ∀ i ∈ top_indices (E.map (cosSim q)) n, i < c.length := fun i hi => by
    rw [hc, ← hlen]
    exact mem_top_indices hi
  refine ⟨_, find_similar_ok hcos hlt, ?_⟩
  rw [List.length_map, top_indices_length_pos _ hn, hlen]

/-- C1 witness: one row, `top_n = 7 > 1`: all one entry, no error. -/
theorem find_similar_length_min_witness :
    ∃ res, find_similar [(1:ℝ), 0] [[1, 0]] ["a"] 7 = .ok res ∧ res.length = 1 := by
  obtain ⟨res, h1, h2⟩ := find_similar_length_min (q := [(1:ℝ), 0]) (E := [[1, 0]])
    (c := ["a"]) (n := 7) (by norm_num) (by norm_num)
    (by intro r hr; simp only [List.mem_singleton] at hr; subst hr; rfl) rfl (by norm_num)
  exact ⟨res, h1, by simpa using h2⟩

/-- C1 counterexample: with `N = 0` rows and positive `top_n`, the call does
not return the promised `min(top_n, 0) = 0` pairs — sklearn raises. -/
theorem find_similar_topn_exceeds_empty_error :
    find_similar [(1:ℝ)] [] [] 3 =
      .error "Found array with 0 sample(s) while a minimum of 1 is required" := by
  apply find_similar_error_of_cos
  rfl

/-- C2: whenever `find_similar` returns a sequence, adjacent scores are
non-increasing (indeed every later score is bounded by every earlier one). -/
theorem find_similar_scores_nonincreasing {q : List ℝ} {E : List (List ℝ)}
    {c : List String} {n : ℤ} {res : List (String × ℝ)}
    (h : find_similar q E c n = .ok res) :
    res.Pairwise (fun a b => b.2 ≤ a.2) := by
  obtain ⟨sims, -, rfl⟩ := find_similar_ok_shape h
  rw [List.pairwise_map]
  exact top_indices_scores_antitone sims n

/-- C2 witness: a successful concrete call whose result is score-sorted. -/
theorem find_similar_scores_nonincreasing_witness :
    ([(("a" : String), (1:ℝ))]).Pairwise (fun a b => b.2 ≤ a.2) :=
  find_similar_scores_nonincreasing eval_single

/-- C3 counterexample: two identical rows tie at score 1.0; with `top_n = 2`
the result lists row 1 ("b") before row 0 ("a"): the first occurrence does
NOT win.  (A stable ascending argsort emits `[0, 1]`, and the `[::-1]`
reversal turns ties into descending index order.) -/
theorem find_similar_tie_first_occurrence_loses :
    find_similar [(1:ℝ), 0] [[1, 0], [1, 0]] ["a", "b"] 2 =
      .ok [("b", 1), ("a", 1)] ∧ ("b" : String) ≠ "a" := by
  constructor
  · rw [find_similar_ok cos_row_tie (by simp [topIdx_ones_two])]
    simp [topIdx_ones_two]
  · decide

/-- C3 (amended): the tie order is deterministic but NOT first-occurrence
first.  On inputs small enough that numpy's argsort runs its stable
insertion sort — at most 16 rows, which covers the counterexample — tied
rows are ranked by DESCENDING original index: among ranked positions
holding equal scores, the later position carries the strictly smaller
original index.  Above that cutoff numpy's introsort permutes ties
arbitrarily, so the program guarantees no index order among ties there;
the size hypothesis confines this statement to the regime where the
stable `argsort` model provably coincides with numpy (the embedded proof
does not otherwise use it). -/
theorem find_similar_ties_descending_index (sims : List ℝ) (n : ℤ)
    (h : sims.length ≤ 16) :
    (top_indices sims n).Pairwise
      (fun i j => sims.getD i 0 = sims.getD j 0 → j < i) :=
  top_indices_ties_desc sims n

/-- C3 witness: the two-element tie of the counterexample, ranked with the
larger index first. -/
theorem find_similar_ties_descending_index_witness :
    (top_indices [(1:ℝ), 1] 2).Pairwise
      (fun i j => [(1:ℝ), 1].getD i 0 = [(1:ℝ), 1].getD j 0 → j < i) :=
  find_similar_ties_descending_index [(1:ℝ), 1] 2 (by norm_num)

/-- C4 counterexample: a corpus LONGER than the matrix row count does not
raise — the claim required a failure for any corpus/row-count mismatch. -/
theorem find_similar_longer_corpus_no_error :
    find_similar [(1:ℝ), 0] [[1, 0]] ["a", "b"] 5 = .ok [("a", 1)] ∧
      (["a", "b"] : List String).length ≠ ([[(1:ℝ), 0]] : List (List ℝ)).length := by
  constructor
  · rw [find_similar_ok cos_row_single (by simp [topIdx_single_five])]
    simp [topIdx_single_five]
  · norm_num

/-- C4 (amended): a query/matrix dimension mismatch raises; with matching
dimensions and a corpus at least as long as the matrix the call succeeds
(extra corpus entries are silently ignored); a corpus SHORTER than the
matrix raises an IndexError once `top_n` selects every row. -/
theorem find_similar_shape_errors (q : List ℝ) (E : List (List ℝ))
    (c : List String) (n : ℤ) :
    ((∃ r ∈ E, r.length ≠ q.length) → ∃ e, find_similar q E c n = .error e) ∧
    (q.length ≠ 0 → E.length ≠ 0 → (∀ r ∈ E, r.length = q.length) →
      E.length ≤ c.length → ∃ res, find_similar q E c n = .ok res) ∧
    (c.length < E.length → (E.length : ℤ) ≤ n → (∀ r ∈ E, r.length = q.length) →
      q.length ≠ 0 →
      find_similar q E c n = .error "IndexError: list index out of range") := by
  refine ⟨?_, ?_, ?_⟩
  · rintro ⟨r, hr, hne⟩
    by_cases hq : q.length = 0
    · exact ⟨_, find_similar_error_of_cos (by unfold cosine_similarity; rw [if_pos hq])⟩
    · have hE : E.length ≠ 0 := by
        intro h0
        rw [List.length_eq_zero] at h0
        subst h0
        exact (List.not_mem_nil r) hr
      have h3 : ¬ (E.all (fun row => row.length == q.length) = true) := fun hall =>
        hne (by simpa using List.all_eq_true.mp hall r hr)
      exact ⟨_, find_similar_error_of_cos
        (by unfold cosine_similarity; rw [if_neg hq, if_neg hE, if_pos h3])⟩
  · intro hq hE hrows hc
    have hcos := cosine_similarity_ok hq hE hrows
    have hlen : (E.map (cosSim q)).length = E.length := List.length_map E _
    have hlt : ∀ i ∈ top_indices (E.map (cosSim q)) n, i < c.length := fun i hi => by
      have := mem_top_indices hi
      omega
    exact ⟨_, find_similar_ok hcos hlt⟩
  · intro hc hn hrows hq
    have hE : E.length ≠ 0 := by omega
    have hcos := cosine_similarity_ok hq hE hrows
    apply find_similar_index_error hcos
    intro hall
    have hlen : (E.map (cosSim q)).length = E.length := List.length_map E _
    have hnn : (0:ℤ) < n := by omega
    have hfull : top_indices (E.map (cosSim q)) n = (argsort (E.map (cosSim q))).reverse :=
      top_indices_of_ge hnn (by rw [hlen]; omega)
    have hmem : E.length - 1 ∈ top_indices (E.map (cosSim q)) n := by
      rw [hfull, List.mem_reverse, mem_argsort, hlen]
      omega
    have := hall _ hmem
    omega

/-- C4 witness: a ragged/mismatched row raises, and a corpus shorter than the
matrix raises an IndexError when `top_n` covers all rows. -/
theorem find_similar_shape_errors_witness :
    (∃ e, find_similar [(1:ℝ), 0] [[1, 0], [1]] ["a", "b"] 5 = .error e) ∧
      find_similar [(1:ℝ), 0] [[1, 0], [1, 0]] ["a"] 2 =
        .error "IndexError: list index out of range" := by
  constructor
  · exact (find_similar_shape_errors _ _ _ _).1 ⟨[1], by simp, by simp⟩
  · exact (find_similar_shape_errors _ _ _ _).2.2 (by norm_num) (by norm_num)
      (by intro r hr
          simp only [List.mem_cons, List.mem_singleton] at hr
          rcases hr with h | h | h <;> first | (subst h; rfl) | simp at h)
      (by norm_num)

/-- C5 (amended): an empty corpus does not return an empty sequence: for every
query and every `top_n` the call raises (sklearn requires at least
one sample in the matrix). -/
theorem find_similar_empty_matrix_error (q : List ℝ) (c : List String) (n : ℤ) :
    ∃ e, find_similar q [] c n = .error e := by
  by_cases hq : q.length = 0
  · exact ⟨_, find_similar_error_of_cos (by unfold cosine_similarity; rw [if_pos hq])⟩
  · exact ⟨"Found array with 0 sample(s) while a minimum of 1 is required",
      find_similar_error_of_cos (by unfold cosine_similarity; rw [if_neg hq]; rfl)⟩

/-- C5 counterexample: the concrete empty-corpus call raises instead of
returning `[]`. -/
theorem find_similar_empty_corpus_raises :
    find_similar [(1:ℝ)] [] [] 5 =
      .error "Found array with 0 sample(s) while a minimum of 1 is required" := by
  apply find_similar_error_of_cos
  rfl

/-- C6 counterexample: `top_n = 0` on a well-shaped nonempty input returns a
NON-empty result (the slice `[-0:]` is the whole array), so the call neither
fails nor clamps to an empty result. -/
theorem find_similar_topn_zero_nonempty_result :
    find_similar [(1:ℝ), 0] [[1, 0]] ["a"] 0 = .ok [("a", 1)] ∧
      ([(("a" : String), (1:ℝ))]) ≠ [] := by
  constructor
  · rw [find_similar_ok cos_row_single (by simp [topIdx_single_zero])]
    simp [topIdx_single_zero]
  · simp

/-- C6 (amended): `top_n ≤ 0` neither fails nor returns empty in general: the
slice `[-top_n:]` drops the `|top_n|` LOWEST-ranked indices, so the call
succeeds with exactly `N - |top_n|` (clamped at 0) top-ranked entries — all
`N` of them when `top_n = 0`. -/
theorem find_similar_nonpos_topn {q : List ℝ} {E : List (List ℝ)} {c : List String}
    {n : ℤ} (hq : q.length ≠ 0) (hE : E.length ≠ 0)
    (hrows : ∀ r ∈ E, r.length = q.length) (hc : c.length = E.length) (hn : n ≤ 0) :
    ∃ res, find_similar q E c n = .ok res ∧ res.length = E.length - (-n).toNat := by
  have hcos := cosine_similarity_ok hq hE hrows
  have hlen : (E.map (cosSim q)).length = E.length := List.length_map E _
  have hlt : ∀ i ∈ top_indices (E.map (cosSim q)) n, i < c.length := fun i hi => by
    rw [hc, ← hlen]
    exact mem_top_indices hi
  refine ⟨_, find_similar_ok hcos hlt, ?_⟩
  rw [List.length_map, top_indices_length_nonpos _ hn, hlen]

/-- C6 witness: `top_n = 0`, one row: the result has `1 - 0 = 1` entry. -/
theorem find_similar_nonpos_topn_witness :
    ∃ res, find_similar [(1:ℝ), 0] [[1, 0]] ["a"] 0 = .ok res ∧ res.length = 1 := by
  obtain ⟨res, h1, h2⟩ := find_similar_nonpos_topn (q := [(1:ℝ), 0]) (E := [[1, 0]])
    (c := ["a"]) (n := 0) (by norm_num) (by norm_num)
    (by intro r hr; simp only [List.mem_singleton] at hr; subst hr; rfl) rfl le_rfl
  exact ⟨res, h1, by simpa using h2⟩

/-- C7: a zero-magnitude query or corpus row raises no exception — the
well-shaped call still succeeds for every `top_n`, and the cosine similarity
against any zero-magnitude vector is the deterministic fallback score `0`
(sklearn replaces zero norms by `1` before dividing, and the dot product
vanishes). -/
theorem find_similar_zero_vector_fallback {q : List ℝ} {E : List (List ℝ)}
    {c : List String} {n : ℤ} (hq : q.length ≠ 0) (hE : E.length ≠ 0)
    (hrows : ∀ r ∈ E, r.length = q.length) (hc : c.length = E.length) :
    (∃ res, find_similar q E c n = .ok res) ∧
      ∀ r : List ℝ, ((∀ x ∈ q, x = 0) ∨ (∀ x ∈ r, x = 0)) → cosSim q r = 0 := by
  constructor
  · have hcos := cosine_similarity_ok hq hE hrows
    have hlen : (E.map (cosSim q)).length = E.length := List.length_map E _
    have hlt : ∀ i ∈ top_indices (E.map (cosSim q)) n, i < c.length := fun i hi => by
      rw [hc, ← hlen]
      exact mem_top_indices hi
    exact ⟨_, find_similar_ok hcos hlt⟩
  · exact fun r h => cosSim_zero_of_degenerate q r h

/-- C7 witness: an all-zero query vector completes normally and scores 0
against every row. -/
theorem find_similar_zero_vector_fallback_witness :
    (∃ res, find_similar [(0:ℝ), 0] [[1, 0]] ["a"] 3 = .ok res) ∧
      ∀ r : List ℝ, ((∀ x ∈ [(0:ℝ), 0], x = 0) ∨ (∀ x ∈ r, x = 0)) →
        cosSim [(0:ℝ), 0] r = 0 :=
  find_similar_zero_vector_fallback (by norm_num) (by norm_num)
    (by intro r hr; simp only [List.mem_singleton] at hr; subst hr; rfl) rfl

/-- C8 counterexample: the query equals row 0 exactly and row 1 (`[2, 0]`, a
scalar multiple, not equal to row 0) also reaches cosine similarity 1.0; with
`top_n = 1` the first entry is corpus[1] = "b", not corpus[0] = "a", because
the tie-break prefers the larger index. -/
theorem find_similar_self_similarity_scaled_row :
    find_similar [(1:ℝ), 0] [[1, 0], [2, 0]] ["a", "b"] 1 = .ok [("b", 1)] ∧
      ("b" : String) ≠ "a" := by
  constructor
  · rw [find_similar_ok cos_row_scaled (by simp [topIdx_ones_one])]
    simp [topIdx_ones_one]
  · decide

/-- C8 (amended): if the query has nonzero magnitude, equals row `k` exactly,
and no OTHER row reaches cosine similarity exactly 1 with the query (the
original claim only excluded rows equal to row `k`, but any positive scalar
multiple also ties at 1 and then beats `k` under the descending-index
tie-break), then for every `top_n ≥ 1` the first returned entry is
`(corpus[k], 1.0)`. -/
theorem find_similar_self_similarity {q : List ℝ} {E : List (List ℝ)}
    {c : List String} {k : ℕ} {n : ℤ} (hE : E.length ≠ 0)
    (hrows : ∀ r ∈ E, r.length = q.length) (hc : c.length = E.length)
    (hk : k < E.length) (hkq : E.getD k [] = q) (hqq : dot q q ≠ 0)
    (hother : ∀ j < E.length, j ≠ k → cosSim q (E.getD j []) ≠ 1) (hn : 0 < n) :
    ∃ res, find_similar q E c n = .ok res ∧ res.head? = some (c.getD k "", 1) := by
  have hq : q.length ≠ 0 := by
    intro h0
    rw [List.length_eq_zero] at h0
    subst h0
    exact hqq (dot_nil_left [])
  have hcos := cosine_similarity_ok hq hE hrows
  have hlen : (E.map (cosSim q)).length = E.length := List.length_map E _
  have hvk : (E.map (cosSim q)).getD k 0 = 1 := by
    rw [map_cosSim_getD hk, hkq]
    exact cosSim_self hqq
  have hmax : ∀ j < (E.map (cosSim q)).length, j ≠ k →
      (E.map (cosSim q)).getD j 0 < (E.map (cosSim q)).getD k 0 := by
    intro j hj hne
    rw [hvk, map_cosSim_getD (hlen ▸ hj)]
    exact lt_of_le_of_ne (cosSim_le_one _ _) (hother j (hlen ▸ hj) hne)
  have hsne : (E.map (cosSim q)) ≠ [] := by
    intro h0
    rw [h0] at hlen
    exact hE hlen.symm
  have hhead : (top_indices (E.map (cosSim q)) n).head? = some k := by
    rw [top_indices_head hn hsne, argsort_getLast (by rw [hlen]; exact hk) hmax]
  have hlt : ∀ i ∈ top_indices (E.map (cosSim q)) n, i < c.length := fun i hi => by
    rw [hc, ← hlen]
    exact mem_top_indices hi
  refine ⟨_, find_similar_ok hcos hlt, ?_⟩
  rw [List.head?_map, hhead, Option.map_some', hvk]

/-- C8 witness: query `[1, 0]` equals row 0, the only other row `[0, 1]` is
orthogonal (similarity 0, not 1), so the top entry is `("a", 1.0)`. -/
theorem find_similar_self_similarity_witness :
    ∃ res, find_similar [(1:ℝ), 0] [[1, 0], [0, 1]] ["a", "b"] 1 = .ok res ∧
      res.head? = some ("a", 1) := by
  have h := find_similar_self_similarity (q := [(1:ℝ), 0]) (E := [[1, 0], [0, 1]])
    (c := ["a", "b"]) (k := 0) (n := 1) (by norm_num)
    (by intro r hr
        simp only [List.mem_cons, List.mem_singleton] at hr
        rcases hr with h | h | h <;> first | (subst h; rfl) | simp at h)
    rfl (by norm_num) rfl (by norm_num [dot])
    (by intro j hj hne
        simp only [List.length_cons, List.length_nil] at hj
        have hj1 : j = 1 := by omega
        subst hj1
        rw [show ([[(1:ℝ), 0], [0, 1]] : List (List ℝ)).getD 1 [] = [0, 1] from rfl,
          cosSim_e1_orth]
        norm_num)
    (by norm_num)
  simpa using h

/-- C9: `find_similar` is deterministic — two calls on identical query,
matrix, corpus and `top_n` produce identical output, including the order
among tied scores. -/
theorem find_similar_deterministic (q₁ q₂ : List ℝ) (E₁ E₂ : List (List ℝ))
    (c₁ c₂ : List String) (n₁ n₂ : ℤ) (hq : q₁ = q₂) (hE : E₁ = E₂)
    (hc : c₁ = c₂) (hn : n₁ = n₂) :
    find_similar q₁ E₁ c₁ n₁ = find_similar q₂ E₂ c₂ n₂ := by
  rw [hq, hE, hc, hn]

/-- C9 witness. -/
theorem find_similar_deterministic_witness :
    find_similar [(1:ℝ), 0] [[1, 0]] ["a"] 5 = find_similar [(1:ℝ), 0] [[1, 0]] ["a"] 5 :=
  find_similar_deterministic _ _ _ _ _ _ _ _ rfl rfl rfl rfl

/-- C10: on well-shaped nonempty input, `top_n = 0` returns ALL `N` corpus
entries ranked — the same output as `top_n = N` — because the Python slice
`sims.argsort()[-0:]` selects the entire array rather than nothing. -/
theorem find_similar_topn_zero_returns_all {q : List ℝ} {E : List (List ℝ)}
    {c : List String} (hq : q.length ≠ 0) (hE : E.length ≠ 0)
    (hrows : ∀ r ∈ E, r.length = q.length) (hc : c.length = E.length) :
    find_similar q E c 0 = find_similar q E c (E.length : ℤ) ∧
      ∃ res, find_similar q E c 0 = .ok res ∧ res.length = E.length := by
  have hcos := cosine_similarity_ok hq hE hrows
  have hlen : (E.map (cosSim q)).length = E.length := List.length_map E _
  have hlt : ∀ i ∈ top_indices (E.map (cosSim q)) 0, i < c.length := fun i hi => by
    rw [hc, ← hlen]
    exact mem_top_indices hi
  have hpos : (0:ℤ) < (E.length : ℤ) := by
    have h0 : E.length ≠ 0 := hE
    omega
  have heq : top_indices (E.map (cosSim q)) (E.length : ℤ) =
      top_indices (E.map (cosSim q)) 0 := by
    rw [top_indices_zero, top_indices_of_ge hpos (by rw [hlen]; omega)]
  have hlt2 : ∀ i ∈ top_indices (E.map (cosSim q)) (E.length : ℤ), i < c.length := by
    rw [heq]
    exact hlt
  refine ⟨?_, ?_⟩
  · rw [find_similar_ok hcos hlt, find_similar_ok hcos hlt2, heq]
  · refine ⟨_, find_similar_ok hcos hlt, ?_⟩
    rw [List.length_map, top_indices_length_nonpos _ le_rfl, hlen]
    simp

/-- C10 witness: one row, `top_n = 0`: same output as `top_n = 1`, with the
full corpus returned. -/
theorem find_similar_topn_zero_returns_all_witness :
    (find_similar [(1:ℝ), 0] [[1, 0]] ["a"] 0 = find_similar [(1:ℝ), 0] [[1, 0]] ["a"] 1) ∧
      ∃ res, find_similar [(1:ℝ), 0] [[1, 0]] ["a"] 0 = .ok res ∧ res.length = 1 :=
  find_similar_topn_zero_returns_all (by norm_num) (by norm_num)
    (by intro r hr; simp only [List.mem_singleton] at hr; subst hr; rfl) rfl

end SimilarityChecker
